import Mathlib

/-!
Verification development for the Dablo rules engine (`src/dablo`).

Shallow embedding conventions:
* Board coordinates in the source are floats that are always integer
  multiples of `0.5` (primary nodes at integers, secondary nodes at
  half-integers).  We embed a source coordinate `x` as the integer `2*x`,
  so a source position `(r, c)` becomes `(2r, 2c) : ℤ × ℤ`.  Primary
  nodes are the positions with both components even, secondary nodes
  have both components odd.  The encoding is exact and injective.
* Python dicts (`board_state`) are embedded as a total function
  `Pos → PieceType` together with a duplicate-free `List Pos` of keys
  (`dom`, insertion ordered);
  `d.get(p, EMPTY)` becomes `if p ∈ dom then board p else EMPTY` and
  `d.get(p)` becomes the corresponding `Option`.  Writing `d[p] = v`
  inserts `p` into the key set and updates the function.
* Python sets of positions (`p1_pieces`, `p2_pieces`) are likewise
  duplicate-free `List Pos` (`setAdd` / `setDiscard` are the source's
  `set.add` / `set.discard`); set iteration becomes list iteration,
  and claims are stated membership-wise so the order never matters.
* AI score floats are embedded as `ℚ`; every constant in the source
  configuration is an exact decimal.  The king-safety distance test
  compares `sqrt(d²) < t`; we compare `d² < t²` on rationals (with the
  doubled-coordinate scaling), which is equivalent for `t > 0`.
-/

namespace Dablo

/-- A board position in doubled coordinates: source `(r, c)` ↦ `(2r, 2c)`. -/
abbrev Pos := ℤ × ℤ

/-- `PieceType` from `src/dablo/core/pieces.py` (an `IntEnum`). -/
inductive PieceType where
  | empty
  | p1Warrior
  | p1Prince
  | p1King
  | p2Warrior
  | p2Prince
  | p2King
deriving DecidableEq, Repr

/-- The numeric value of the `IntEnum` member. -/
def PieceType.value : PieceType → ℤ
  | .empty => 0
  | .p1Warrior => 1
  | .p1Prince => 2
  | .p1King => 3
  | .p2Warrior => -1
  | .p2Prince => -2
  | .p2King => -3

/-- `Player` from `src/dablo/core/player.py` (`P1 = 1`, `P2 = -1`). -/
inductive Player where
  | P1
  | P2
deriving DecidableEq, Repr

/-- The numeric value of the player enum member. -/
def Player.value : Player → ℤ
  | .P1 => 1
  | .P2 => -1

/-- `Player.opponent` from `src/dablo/core/player.py`. -/
def Player.opponent : Player → Player
  | .P1 => .P2
  | .P2 => .P1

/-- `can_capture` from `src/dablo/core/pieces.py`: the target must be a
non-empty piece of the other owner and the attacker's rank (absolute
enum value) must be at least the target's rank. -/
def canCapture (attacker target : PieceType) : Bool :=
  if target = .empty ∨ attacker = .empty then false
  else if (decide (0 < attacker.value)) = (decide (0 < target.value)) then false
  else decide (|target.value| ≤ |attacker.value|)

/-- `WinReason` from `src/dablo/core/rules.py`. -/
inductive WinReason where
  | kingCapture
  | loneKing
  | moveLimit
  | stalemate
  | kingsOnlyDraw
deriving DecidableEq, Repr

/-- `Move` from `src/dablo/core/rules.py`: `from_pos`, `to_pos` and an
optional `capture_pos`. -/
structure Move where
  from_pos : Pos
  to_pos : Pos
  capture_pos : Option Pos := none
deriving DecidableEq, Repr

/-- `Move.is_capture`: true iff `capture_pos` is present. -/
def Move.is_capture (m : Move) : Bool := m.capture_pos.isSome

/-- `DabloConfig` from `src/dablo/core/config.py`.  The pydantic bounds
(`3 ≤ rows, cols ≤ 10`, `50 ≤ move_limit ≤ 2000`) are construction-time
validation; claims that depend on them take them as hypotheses. -/
structure DabloConfig where
  board_rows : ℕ := 6
  board_cols : ℕ := 5
  move_limit : ℕ := 500
  p1_setup : List (PieceType × List Pos) := []
  p2_setup : List (PieceType × List Pos) := []

/-- The node set built by the loops of `DabloGame._create_board_graph`:
every integer pair inside the bounds, plus a half-step (odd/odd in
doubled coordinates) node in the interior of every 1×1 cell. -/
def nodesList (cfg : DabloConfig) : List Pos :=
  (List.range cfg.board_rows).flatMap fun ri =>
    (List.range cfg.board_cols).flatMap fun ci =>
      ((2 * (ri : ℤ), 2 * (ci : ℤ)) : Pos) ::
        (if ri < cfg.board_rows - 1 ∧ ci < cfg.board_cols - 1 then
          [((2 * (ri : ℤ) + 1, 2 * (ci : ℤ) + 1) : Pos)] else [])

/-- The candidate-neighbor lists of `_create_board_graph`: a primary
node (both coordinates even ⟺ source `r == int(r) and c == int(c)`)
has four orthogonal full-step and four diagonal half-step candidates; a
secondary node has four diagonal half-step candidates. -/
def potentialNeighbors (p : Pos) : List Pos :=
  if p.1 % 2 = 0 ∧ p.2 % 2 = 0 then
    [(p.1 - 2, p.2), (p.1 + 2, p.2), (p.1, p.2 - 2), (p.1, p.2 + 2),
     (p.1 - 1, p.2 - 1), (p.1 - 1, p.2 + 1), (p.1 + 1, p.2 - 1), (p.1 + 1, p.2 + 1)]
  else
    [(p.1 - 1, p.2 - 1), (p.1 - 1, p.2 + 1), (p.1 + 1, p.2 - 1), (p.1 + 1, p.2 + 1)]

/-- The adjacency graph of `_create_board_graph`: candidates are kept
only when they are nodes; `graph.get(pos, [])` yields `[]` off the
board. -/
def neighbors (cfg : DabloConfig) (p : Pos) : List Pos :=
  if p ∈ nodesList cfg then (potentialNeighbors p).filter (· ∈ nodesList cfg) else []

/-- Python `set.add` (and dict-key insertion): add the element as a
new key unless already present. -/
def setAdd (l : List Pos) (p : Pos) : List Pos :=
  if p ∈ l then l else p :: l

/-- Python `set.discard`: remove the element (the first occurrence; on
the duplicate-free lists maintained by the game, the only one). -/
def setDiscard : List Pos → Pos → List Pos
  | [], _ => []
  | q :: qs, p => if q = p then qs else q :: setDiscard qs p

/-- The mutable state of `DabloGame` (`src/dablo/core/game.py`).  The
`board_state` dict is split into the total function `board` and the key
set `dom`; `nodes` is recomputed from `config` by `neighbors` (the
source builds it once in `__init__` and never mutates it). -/
structure GameState where
  config : DabloConfig
  board : Pos → PieceType
  dom : List Pos
  current_player : Player := .P1
  game_over : Bool := false
  winner : Option Player := none
  win_reason : Option WinReason := none
  capture_sequence : Bool := false
  capturing_piece : Option Pos := none
  move_count : ℕ := 0
  last_captured_piece : Option PieceType := none
  p1_pieces : List Pos := []
  p2_pieces : List Pos := []

/-- `board_state.get(pos, PieceType.EMPTY)`. -/
def boardGetD (s : GameState) (pos : Pos) : PieceType :=
  if pos ∈ s.dom then s.board pos else .empty

/-- `board_state.get(pos)` (no default, `None` off the key set). -/
def boardGet? (s : GameState) (pos : Pos) : Option PieceType :=
  if pos ∈ s.dom then some (s.board pos) else none

/-- `DabloGame.add_piece`: fails when the position is not a key of
`board_state` or is already occupied; otherwise writes the piece and
inserts the position into the owner's piece set (by the sign of the
enum value). -/
def addPiece (s : GameState) (pos : Pos) (piece_type : PieceType) :
    Bool × GameState :=
  if pos ∉ s.dom then (false, s)
  else if s.board pos ≠ .empty then (false, s)
  else
    (true,
      { s with
        board := Function.update s.board pos piece_type
        p1_pieces := if 0 < piece_type.value then setAdd s.p1_pieces pos else s.p1_pieces
        p2_pieces := if piece_type.value < 0 then setAdd s.p2_pieces pos else s.p2_pieces })

/-- `DabloGame.remove_piece`: reads with default `EMPTY`, writes
`EMPTY` (which inserts the key even if it was absent), and discards the
position from the owner's piece set. -/
def removePiece (s : GameState) (pos : Pos) : PieceType × GameState :=
  let removed := boardGetD s pos
  (removed,
    { s with
      board := Function.update s.board pos .empty
      dom := setAdd s.dom pos
      p1_pieces := if 0 < removed.value then setDiscard s.p1_pieces pos else s.p1_pieces
      p2_pieces := if removed.value < 0 then setDiscard s.p2_pieces pos else s.p2_pieces })

/-- `DabloGame.clear_board`: every existing key is set to `EMPTY` and
both piece sets are cleared. -/
def clearBoard (s : GameState) : GameState :=
  { s with
    board := fun p => if p ∈ s.dom then .empty else s.board p
    p1_pieces := ∅
    p2_pieces := ∅ }

/-- `DabloGame.setup_custom_position`: clear, then `add_piece` each
non-`EMPTY` entry (dict iteration embedded as list order). -/
def setupCustomPosition (s : GameState) (pieces : List (Pos × PieceType)) :
    GameState :=
  pieces.foldl
    (fun st pp => if pp.2 ≠ PieceType.empty then (addPiece st pp.1 pp.2).2 else st)
    (clearBoard s)

/-- `MovementValidator.is_forward_move`: row strictly decreases for P1,
strictly increases for P2. -/
def isForwardMove (from_pos to_pos : Pos) (is_player1 : Bool) : Bool :=
  if is_player1 then decide (to_pos.1 - from_pos.1 < 0)
  else decide (0 < to_pos.1 - from_pos.1)

/-- `MovementValidator.is_adjacent` via the board graph. -/
def isAdjacent (cfg : DabloConfig) (pos1 pos2 : Pos) : Bool :=
  decide (pos2 ∈ neighbors cfg pos1)

/-- `MovementValidator.calculate_capture_landing`.  In doubled
coordinates the special knight-like offsets `(0.5, 1.5)/(1.5, 0.5)`
become `(1, 3)/(3, 1)` and the half-step nudge `±0.5` becomes `±1`. -/
def calculateCaptureLanding (from_pos capture_pos : Pos) : Pos :=
  let row_diff := capture_pos.1 - from_pos.1
  let col_diff := capture_pos.2 - from_pos.2
  if (|row_diff|, |col_diff|) = ((1 : ℤ), (3 : ℤ)) ∨
      (|row_diff|, |col_diff|) = ((3 : ℤ), (1 : ℤ)) then
    (capture_pos.1 + (if 0 < row_diff then 1 else -1),
     capture_pos.2 + (if 0 < col_diff then 1 else -1))
  else
    (capture_pos.1 + row_diff, capture_pos.2 + col_diff)

/-- `GameRules.is_valid_regular_move`: the target must be an existing
empty node (`get` without default, so an absent key fails), adjacent,
and forward for the piece's owner. -/
def isValidRegularMove (s : GameState) (from_pos to_pos : Pos)
    (piece : PieceType) : Bool :=
  if boardGet? s to_pos ≠ some .empty then false
  else if ¬ isAdjacent s.config from_pos to_pos then false
  else isForwardMove from_pos to_pos (decide (0 < piece.value))

/-- `GameRules.is_valid_capture_move`: the landing square must exist
and be empty, the target must be capturable, the jumped square must be
adjacent, and the landing must equal the computed one. -/
def isValidCaptureMove (s : GameState) (from_pos capture_pos landing_pos : Pos)
    (attacker target : PieceType) : Bool :=
  if boardGet? s landing_pos ≠ some .empty then false
  else if ¬ canCapture attacker target then false
  else if ¬ isAdjacent s.config from_pos capture_pos then false
  else decide (landing_pos = calculateCaptureLanding from_pos capture_pos)

/-- `DabloGame.get_valid_moves`: nothing moves from an absent or empty
square or a square not owned by the player to move (`not piece` is
true for both `None` and the falsy `EMPTY`); each graph neighbor
yields either a validated regular move (empty target) or a validated
capture (opposite-sign target). -/
def getValidMoves (s : GameState) (pos : Pos) : List Move :=
  match boardGet? s pos with
  | none => []
  | some piece =>
    if piece = .empty then []
    else if (decide (0 < piece.value)) ≠ (decide (0 < s.current_player.value)) then []
    else
      (neighbors s.config pos).flatMap fun neighbor_pos =>
        let target := boardGetD s neighbor_pos
        if target = .empty then
          if isValidRegularMove s pos neighbor_pos piece then
            [{ from_pos := pos, to_pos := neighbor_pos }]
          else []
        else if piece.value * target.value < 0 then
          let landing_pos := calculateCaptureLanding pos neighbor_pos
          if isValidCaptureMove s pos neighbor_pos landing_pos piece target then
            [{ from_pos := pos, to_pos := landing_pos, capture_pos := some neighbor_pos }]
          else []
        else []

/-- `DabloGame.get_all_valid_moves`: during a capture sequence only the
designated capturing piece is queried; otherwise the union over the
mover's piece set (set iteration embedded as `Finset.toList`). -/
def getAllValidMoves (s : GameState) : List Move :=
  match s.capture_sequence, s.capturing_piece with
  | true, some cp => getValidMoves s cp
  | _, _ =>
    let player_pieces :=
      if s.current_player = Player.P1 then s.p1_pieces else s.p2_pieces
    player_pieces.flatMap (getValidMoves s)

/-- `DabloGame.get_king_position`: scan the player's piece set for the
king piece.  The source indexes `board_state[pos]` directly; positions
in a piece set are keys in every state the public operations build, so
the defaulted read used here agrees with it. -/
def getKingPosition (s : GameState) (player : Player) : Option Pos :=
  let king_type := if player = Player.P1 then PieceType.p1King else PieceType.p2King
  let player_pieces := if player = Player.P1 then s.p1_pieces else s.p2_pieces
  player_pieces.find? fun pos => boardGetD s pos = king_type

/-- `GameRules.check_win_condition`, in the exact source order:
king capture, kings-only draw, lone king, move limit, stalemate. -/
def checkWinCondition (p1_pieces_count p2_pieces_count : ℕ)
    (p1_king_exists p2_king_exists : Bool) (move_count move_limit : ℕ)
    (has_valid_moves : Bool) (current_player : Player) :
    Option Player × Option WinReason :=
  if ¬ p1_king_exists then (some .P2, some .kingCapture)
  else if ¬ p2_king_exists then (some .P1, some .kingCapture)
  else if p1_pieces_count = 1 ∧ p2_pieces_count = 1 then (none, some .kingsOnlyDraw)
  else if p1_pieces_count = 1 ∧ 1 < p2_pieces_count then (some .P2, some .loneKing)
  else if p2_pieces_count = 1 ∧ 1 < p1_pieces_count then (some .P1, some .loneKing)
  else if move_limit ≤ move_count then (none, some .moveLimit)
  else if ¬ has_valid_moves then (some current_player.opponent, some .stalemate)
  else (none, none)

/-- `DabloGame.end_game`. -/
def endGame (s : GameState) (winner : Player) (reason : WinReason) : GameState :=
  { s with game_over := true, winner := some winner, win_reason := some reason }

/-- `DabloGame._check_game_state`: evaluate the win condition and end
the game only when the returned winner is truthy (`if winner:`), which
a `None` winner — i.e. any draw — is not. -/
def checkGameState (s : GameState) : GameState :=
  let has_valid_moves := !(getAllValidMoves s).isEmpty
  let p1_king := (getKingPosition s .P1).isSome
  let p2_king := (getKingPosition s .P2).isSome
  match checkWinCondition s.p1_pieces.length s.p2_pieces.length p1_king p2_king
      s.move_count s.config.move_limit has_valid_moves s.current_player with
  | (some w, r) =>
    { s with game_over := true, winner := some w, win_reason := r }
  | (none, _) => s

/-- The end-turn tail of `DabloGame.make_move`: clear the chain state,
pass the turn, then run terminal evaluation. -/
def endTurn (s : GameState) : GameState :=
  checkGameState
    { s with
      capture_sequence := false
      capturing_piece := none
      current_player := s.current_player.opponent }

/-- `DabloGame.make_move`: rejects only a finished game; otherwise it
moves the piece (no legality check of any kind), increments the move
counter, removes a captured piece, and either continues the capture
chain (same player, marker set, no terminal evaluation) or ends the
turn. -/
def makeMove (s : GameState) (move : Move) : Bool × GameState :=
  if s.game_over then (false, s)
  else
    let moved := removePiece s move.from_pos
    let s2 := (addPiece moved.2 move.to_pos moved.1).2
    let s3 := { s2 with move_count := s2.move_count + 1 }
    match move.capture_pos with
    | some cap =>
      let captured := removePiece s3 cap
      let s4 := { captured.2 with last_captured_piece := some captured.1 }
      let additional_captures :=
        ((getValidMoves s4 move.to_pos).filter (fun m => m.is_capture)).filter
          (fun m => m.to_pos ≠ move.from_pos)
      if !additional_captures.isEmpty then
        (true,
          { s4 with capture_sequence := true, capturing_piece := some move.to_pos })
      else (true, endTurn s4)
    | none => (true, endTurn s3)

/-- `DabloGame.__init__` with `initial_state = "empty"`:
`board_state = {}` and empty piece sets. -/
def emptyGame (cfg : DabloConfig) : GameState :=
  { config := cfg, board := fun _ => .empty, dom := [] }

/-- `DabloGame.__init__` with the default initial state:
`board_state = dict.fromkeys(nodes, EMPTY)` then `add_piece` for every
configured P1 and P2 placement. -/
def newGame (cfg : DabloConfig) : GameState :=
  let base : GameState :=
    { config := cfg, board := fun _ => .empty, dom := nodesList cfg }
  let withP1 := cfg.p1_setup.foldl
    (fun st e => e.2.foldl (fun st2 pos => (addPiece st2 pos e.1).2) st) base
  cfg.p2_setup.foldl
    (fun st e => e.2.foldl (fun st2 pos => (addPiece st2 pos e.1).2) st) withP1

/-! AI embedding (`src/dablo/ai`), restricted to what the Smart
evaluator's king-safety term needs. -/

/-- A detached board dict as passed around by the AI helpers. -/
structure BoardDict where
  fn : Pos → PieceType
  keys : List Pos

/-- `board_dict.get(pos, EMPTY)`. -/
def BoardDict.getD (b : BoardDict) (pos : Pos) : PieceType :=
  if pos ∈ b.keys then b.fn pos else .empty

/-- `KingSafetyConfig` penalty/bonus defaults from
`src/dablo/ai/config.py` (the distance thresholds `1.1/1.6/2.5` appear
inside `evaluateKingSafety` as exact squared-integer comparisons). -/
def capture_danger_penalty : ℚ := -5
def immediate_threat_penalty : ℚ := -50
def close_distance_penalty : ℚ := -4
def medium_distance_penalty : ℚ := -2
def safe_distance_bonus : ℚ := 1 / 5
def very_safe_bonus : ℚ := 1 / 2

/-- The `medium` difficulty `king_safety` weight from
`src/dablo/ai/config.py`. -/
def medium_king_safety_weight : ℚ := 1 / 2

/-- `SmartNPCPlayer._simulate_move_on_board`: copy the dict, `pop` the
origin key (removing it entirely), write the mover at the destination,
and blank a captured square. -/
def simulateMoveOnBoard (board_state : BoardDict) (move : Move) : BoardDict :=
  let moving_piece := board_state.getD move.from_pos
  let b1 : BoardDict :=
    { fn := Function.update board_state.fn move.from_pos .empty
      keys := setDiscard board_state.keys move.from_pos }
  let b2 : BoardDict :=
    { fn := Function.update b1.fn move.to_pos moving_piece
      keys := setAdd b1.keys move.to_pos }
  match move.capture_pos with
  | some cap =>
    { fn := Function.update b2.fn cap .empty, keys := setAdd b2.keys cap }
  | none => b2

/-- `SmartNPCPlayer._create_temp_game_state`: a fresh game built with
`initial_state="empty"`, whose `board_state` is then replaced by the
given dict.  The piece-tracking sets `p1_pieces`/`p2_pieces` are left
as the empty sets of the fresh game — they are never synchronised with
the assigned board. -/
def createTempGameState (original_config : DabloConfig) (board_state : BoardDict)
    (player_to_move : Option Player) (self_player_id : Player) : GameState :=
  { emptyGame original_config with
    board := board_state.fn
    dom := board_state.keys
    current_player := player_to_move.getD self_player_id }

/-- Squared distance between two doubled-coordinate positions (the
source computes `((kr - r)² + (kc - c)²) ** 0.5` in floats; comparing
squares against squared thresholds is equivalent). -/
def distSq (p q : Pos) : ℤ := (p.1 - q.1) ^ 2 + (p.2 - q.2) ^ 2

/-- `SmartNPCPlayer._evaluate_king_safety` for a `medium` player:
locate the mover's king on the simulated board (missing king ⇒
immediate-threat penalty); scan the opponent reply set of the temp
game for a capture of the king's square (⇒ capture-danger penalty);
otherwise classify the distance to the nearest surviving enemy through
the ordered thresholds. -/
def evaluateKingSafety (self_player_id : Player) (game : GameState)
    (board_after_move : BoardDict) : ℚ :=
  let king_type := if self_player_id = Player.P1 then PieceType.p1King else .p2King
  match board_after_move.keys.find? (fun p => board_after_move.fn p = king_type) with
  | none => immediate_threat_penalty
  | some king_pos =>
    let opponent_id := self_player_id.opponent
    let temp_game :=
      createTempGameState game.config board_after_move (some opponent_id) self_player_id
    if (getAllValidMoves temp_game).any
        (fun m => m.is_capture && m.capture_pos = some king_pos) then
      capture_danger_penalty
    else
      let enemy_dists :=
        (board_after_move.keys.filter fun p =>
          board_after_move.fn p ≠ PieceType.empty ∧
            (decide (0 < (board_after_move.fn p).value)) ≠
              (decide (0 < self_player_id.value))).map
          (distSq king_pos)
      match enemy_dists with
      | [] => very_safe_bonus
      | d :: ds =>
        let min_dist_sq := ds.foldl (fun x y => if x ≤ y then x else y) d
        -- The source compares `min_dist = sqrt(d²)` against the
        -- thresholds `1.1`, `1.6`, `2.5`.  With doubled coordinates
        -- `min_dist_sq = 4·d²`, so `d < t ⟺ 25·min_dist_sq < 100·t²`:
        -- the three tests below are `< 1.1`, `< 1.6`, `< 2.5` exactly.
        if 25 * min_dist_sq < 121 then close_distance_penalty
        else if 25 * min_dist_sq < 256 then medium_distance_penalty
        else if min_dist_sq < 25 then safe_distance_bonus
        else very_safe_bonus

/-! Concrete fixtures used by the claim theorems, their witnesses and
counterexamples.  Each is a legitimately configured game (a 3×3 or 4×3
board is within the validated `3 ≤ rows, cols ≤ 10` bounds; move limits
are at the validated minimum 50). -/

/-- 3×3 board, kings only: P1 king at source `(2, 2)`, P2 king at
source `(0, 0)`. -/
def cfgKings : DabloConfig :=
  { board_rows := 3, board_cols := 3, move_limit := 50,
    p1_setup := [(.p1King, [((4, 4) : Pos)])],
    p2_setup := [(.p2King, [((0, 0) : Pos)])] }

/-- The kings-only game, P1 to move. -/
def sKings : GameState := newGame cfgKings

/-- A move not in P1's legal set (it moves P2's king). -/
def illegalMove : Move := { from_pos := (0, 0), to_pos := (2, 2) }

/-- A legal P1 king move in the kings-only game. -/
def legalKingsMove : Move := { from_pos := (4, 4), to_pos := (3, 3) }

/-- 3×3 board, two pieces per side (king + warrior each). -/
def cfgMoveLimit : DabloConfig :=
  { board_rows := 3, board_cols := 3, move_limit := 50,
    p1_setup := [(.p1King, [((4, 4) : Pos)]), (.p1Warrior, [((4, 0) : Pos)])],
    p2_setup := [(.p2King, [((0, 0) : Pos)]), (.p2Warrior, [((0, 4) : Pos)])] }

/-- The two-pieces-each game after 49 applied moves (one short of the
configured limit 50). -/
def sMoveLimit : GameState := { newGame cfgMoveLimit with move_count := 49 }

/-- A legal P1 warrior move in `sMoveLimit`: source `(2,0) → (1.5,0.5)`. -/
def moveLimitMove : Move := { from_pos := (4, 0), to_pos := (3, 1) }

/-- 4×3 board: P1 warrior at source `(3,1)`, P2 warriors at `(2,1)` and
`(0.5,0.5)`: the capture `(3,1) ⇒ (1,1)` opens a further capture over
`(0.5,0.5)` landing at `(0,0)`, and also leaves regular moves open. -/
def cfgChain : DabloConfig :=
  { board_rows := 4, board_cols := 3, move_limit := 50,
    p1_setup := [(.p1Warrior, [((6, 2) : Pos)])],
    p2_setup := [(.p2Warrior, [((4, 2) : Pos), ((1, 1) : Pos)])] }

/-- The chain-capture game, P1 to move. -/
def sChain : GameState := newGame cfgChain

/-- The legal capture `(3,1)` over `(2,1)` landing at `(1,1)`. -/
def chainMove : Move := { from_pos := (6, 2), to_pos := (2, 2), capture_pos := some (4, 2) }

/-- A regular (non-capture) move of the landed piece, source `(1,1) → (0,1)`. -/
def chainRegularMove : Move := { from_pos := (2, 2), to_pos := (0, 2) }

/-- 4×3 board: P1 king at source `(3,1)`, P2 king at `(2,1)`, P2
warrior at `(0.5,0.5)`: capturing the P2 king lands at `(1,1)` where a
further capture over the warrior is available, so the chain continues. -/
def cfgKingChain : DabloConfig :=
  { board_rows := 4, board_cols := 3, move_limit := 50,
    p1_setup := [(.p1King, [((6, 2) : Pos)])],
    p2_setup := [(.p2King, [((4, 2) : Pos)]), (.p2Warrior, [((1, 1) : Pos)])] }

/-- The king-capturing-chain game, P1 to move. -/
def sKingChain : GameState := newGame cfgKingChain

/-- The legal capture of P2's king: `(3,1)` over `(2,1)` to `(1,1)`. -/
def kingChainMove : Move := { from_pos := (6, 2), to_pos := (2, 2), capture_pos := some (4, 2) }

/-- 3×3 board: P1 king at source `(1.5,1.5)`, P2 king at `(2,1)`.
After P1 king moves to `(1,1)` the P2 king can capture it (jumping
`(2,1) → (0,1)` over `(1,1)`). -/
def cfgSafety : DabloConfig :=
  { board_rows := 3, board_cols := 3, move_limit := 50,
    p1_setup := [(.p1King, [((3, 3) : Pos)])],
    p2_setup := [(.p2King, [((4, 2) : Pos)])] }

/-- The king-safety game, P1 (the Smart NPC) to move. -/
def gSafety : GameState := newGame cfgSafety

/-- The candidate move being scored: P1 king `(1.5,1.5) → (1,1)`. -/
def safetyMove : Move := { from_pos := (3, 3), to_pos := (2, 2) }

/-- The board the evaluator simulates for `safetyMove`. -/
def boardAfterSafety : BoardDict :=
  simulateMoveOnBoard { fn := gSafety.board, keys := gSafety.dom } safetyMove

/-- A properly synchronised game at the simulated position with the
opponent to move — the position in which the claim's "legal opponent
reply" set is evaluated. -/
def properSafety : GameState :=
  { config := cfgSafety, board := boardAfterSafety.fn, dom := boardAfterSafety.keys,
    current_player := .P2, p1_pieces := [(2, 2)], p2_pieces := [(4, 2)] }

/-- The state reached by removing a piece at the off-board source
position `(-1,-1)` in the kings-only game (this inserts the position
as a key of `board_state` holding `EMPTY`). -/
def sOffBoard : GameState := (removePiece sKings (-2, -2)).2

/-- The claimed board/piece-set consistency invariant: a position is in
a player's occupied set iff the board mapping at that position holds a
piece owned by that player (P1 owns the positive enum values, P2 the
negative ones). -/
def invariantC9 (s : GameState) : Prop :=
  ∀ pos : Pos,
    (pos ∈ s.p1_pieces ↔ pos ∈ s.dom ∧ 0 < (s.board pos).value) ∧
    (pos ∈ s.p2_pieces ↔ pos ∈ s.dom ∧ (s.board pos).value < 0)

/-- Games constructed through the public configuration and mutated only
through the public operations named by the spec. -/
inductive Reachable : GameState → Prop where
  | init (cfg : DabloConfig) : Reachable (newGame cfg)
  | add (s : GameState) (pos : Pos) (pt : PieceType) :
      Reachable s → Reachable (addPiece s pos pt).2
  | remove (s : GameState) (pos : Pos) :
      Reachable s → Reachable (removePiece s pos).2
  | clear (s : GameState) : Reachable s → Reachable (clearBoard s)
  | custom (s : GameState) (pieces : List (Pos × PieceType)) :
      Reachable s → Reachable (setupCustomPosition s pieces)
  | move (s : GameState) (m : Move) : Reachable s → Reachable (makeMove s m).2

/-- The claimed invariant strengthened with the duplicate-freeness the
Python `set` type provides for free (needed for `set.discard` to
behave like list erasure). -/
def StrongInv (s : GameState) : Prop :=
  invariantC9 s ∧ s.p1_pieces.Nodup ∧ s.p2_pieces.Nodup

/-! Helper lemmas: which fields each operation can touch. -/

lemma removePiece_move_count (s : GameState) (p : Pos) :
    (removePiece s p).2.move_count = s.move_count := rfl

lemma removePiece_current_player (s : GameState) (p : Pos) :
    (removePiece s p).2.current_player = s.current_player := rfl

lemma removePiece_game_over (s : GameState) (p : Pos) :
    (removePiece s p).2.game_over = s.game_over := rfl

lemma addPiece_move_count (s : GameState) (p : Pos) (pt : PieceType) :
    (addPiece s p pt).2.move_count = s.move_count := by
  unfold addPiece; split_ifs <;> rfl

lemma addPiece_current_player (s : GameState) (p : Pos) (pt : PieceType) :
    (addPiece s p pt).2.current_player = s.current_player := by
  unfold addPiece; split_ifs <;> rfl

lemma addPiece_game_over (s : GameState) (p : Pos) (pt : PieceType) :
    (addPiece s p pt).2.game_over = s.game_over := by
  unfold addPiece; split_ifs <;> rfl

lemma checkGameState_move_count (s : GameState) :
    (checkGameState s).move_count = s.move_count := by
  unfold checkGameState; dsimp only; split <;> rfl

lemma checkGameState_current_player (s : GameState) :
    (checkGameState s).current_player = s.current_player := by
  unfold checkGameState; dsimp only; split <;> rfl

lemma checkGameState_capture_sequence (s : GameState) :
    (checkGameState s).capture_sequence = s.capture_sequence := by
  unfold checkGameState; dsimp only; split <;> rfl

lemma checkGameState_capturing_piece (s : GameState) :
    (checkGameState s).capturing_piece = s.capturing_piece := by
  unfold checkGameState; dsimp only; split <;> rfl

lemma endTurn_move_count (s : GameState) :
    (endTurn s).move_count = s.move_count := by
  unfold endTurn; rw [checkGameState_move_count]

lemma endTurn_capture_sequence (s : GameState) :
    (endTurn s).capture_sequence = false := by
  unfold endTurn; rw [checkGameState_capture_sequence]

/-- `make_move` increments the move counter exactly when the game is
not yet over. -/
lemma makeMove_move_count (s : GameState) (m : Move) :
    (makeMove s m).2.move_count =
      if s.game_over then s.move_count else s.move_count + 1 := by
  unfold makeMove
  split
  · simp [*]
  · rcases hc : m.capture_pos with - | cap <;> simp only [hc]
    · simp [endTurn_move_count, addPiece_move_count, removePiece_move_count, *]
    · split <;>
        simp [endTurn_move_count, addPiece_move_count, removePiece_move_count, *]

/-- Every move produced by `get_valid_moves(pos)` starts at `pos`. -/
lemma getValidMoves_from_pos (s : GameState) (pos : Pos) :
    ∀ mv ∈ getValidMoves s pos, mv.from_pos = pos := by
  intro mv hmv
  unfold getValidMoves at hmv
  rcases h : boardGet? s pos with - | piece <;> rw [h] at hmv
  · simp at hmv
  · simp only [] at hmv
    split_ifs at hmv with h1 h2
    · simp at hmv
    · simp at hmv
    · rw [List.mem_flatMap] at hmv
      obtain ⟨nb, -, hm⟩ := hmv
      split_ifs at hm <;> simp_all

/-! Claim C1. -/

/-- C1 counterexample: in the kings-only game, `illegalMove` (which
moves P2's king although P1 is to move) is not in the legal set, yet
`make_move` returns success, increments the move counter, changes the
board and passes the turn — it silently mutates state. -/
theorem makeMove_applies_illegal_move :
    illegalMove ∉ getAllValidMoves sKings ∧ sKings.game_over = false ∧
    (makeMove sKings illegalMove).1 = true ∧
    (makeMove sKings illegalMove).2.move_count = sKings.move_count + 1 ∧
    boardGetD (makeMove sKings illegalMove).2 (2, 2) ≠ boardGetD sKings (2, 2) ∧
    (makeMove sKings illegalMove).2.current_player ≠ sKings.current_player := by
  decide

/-- C1 (amended): `make_move` rejects a move (returning failure with
the state untouched) only when the game is already over; while the
game is Active it applies any `Move` whatsoever — success is returned
and the move counter is incremented with no check against the legal
move set. -/
theorem makeMove_checks_only_game_over (s : GameState) (m : Move) :
    (s.game_over = true → makeMove s m = (false, s)) ∧
    (s.game_over = false →
      (makeMove s m).1 = true ∧ (makeMove s m).2.move_count = s.move_count + 1) := by
  constructor
  · intro h; unfold makeMove; rw [h]; simp
  · intro h
    refine ⟨?_, by simp [makeMove_move_count, h]⟩
    unfold makeMove; rw [h]
    simp only [Bool.false_eq_true, if_false]
    rcases hc : m.capture_pos with - | cap <;> simp only [hc]
    all_goals (first | trivial | (split <;> rfl))

/-- C1 witness for `makeMove_checks_only_game_over`. -/
theorem makeMove_checks_only_game_over_witness :
    sKings.game_over = false ∧
    (makeMove sKings legalKingsMove).1 = true ∧
    (makeMove sKings legalKingsMove).2.move_count = sKings.move_count + 1 :=
  ⟨by decide, (makeMove_checks_only_game_over sKings legalKingsMove).2 (by decide)⟩

/-! Claim C2. -/

/-- C2 (code bug): a legal turn-passing move in the kings-only game
leaves both players with exactly one piece; `check_win_condition`
does report the kings-only draw `(None, KINGS_ONLY_DRAW)`, but
`_check_game_state` runs `end_game` only under `if winner:` and a draw
has no winner, so the game is NOT marked over (no winner, no reason). -/
theorem kings_only_draw_never_ends_game :
    legalKingsMove ∈ getAllValidMoves sKings ∧
    (makeMove sKings legalKingsMove).1 = true ∧
    (makeMove sKings legalKingsMove).2.p1_pieces.length = 1 ∧
    (makeMove sKings legalKingsMove).2.p2_pieces.length = 1 ∧
    checkWinCondition 1 1 true true 1 50 true .P2 = (none, some .kingsOnlyDraw) ∧
    (makeMove sKings legalKingsMove).2.game_over = false ∧
    (makeMove sKings legalKingsMove).2.winner = none ∧
    (makeMove sKings legalKingsMove).2.win_reason = none := by
  decide

/-! Claim C3. -/

/-- C3 (code bug): the move counter is monotonically non-decreasing
(first conjunct, over every state and move), but the "move limit" draw
terminal state is never entered: in `sMoveLimit` (two pieces each,
counter 49, limit 50) a legal move raises the counter to the limit and
`check_win_condition` reports `(None, MOVE_LIMIT)`, yet the `if
winner:` guard of `_check_game_state` skips `end_game` for the
winnerless draw and the game stays Active. -/
theorem move_limit_draw_never_entered :
    (∀ (s : GameState) (m : Move), s.move_count ≤ (makeMove s m).2.move_count) ∧
    moveLimitMove ∈ getAllValidMoves sMoveLimit ∧
    sMoveLimit.config.move_limit = 50 ∧
    sMoveLimit.move_count = 49 ∧
    (makeMove sMoveLimit moveLimitMove).2.move_count = 50 ∧
    checkWinCondition 2 2 true true 50 50 true .P2 = (none, some .moveLimit) ∧
    (makeMove sMoveLimit moveLimitMove).2.game_over = false := by
  refine ⟨?_, by decide, by decide, by decide, by decide, by decide, by decide⟩
  intro s m
  rw [makeMove_move_count]
  split <;> omega

/-! Claim C4. -/

/-- C4 counterexample: after the legal capture `chainMove` (which
leaves further captures open from the landing square), the same player
keeps the turn, but the subsequent legal-move list also contains
`chainRegularMove`, a NON-capturing move of the landed piece — the
chain restricts moves to that piece, not to its captures. -/
theorem chain_offers_non_capture_moves :
    chainMove ∈ getAllValidMoves sChain ∧
    (makeMove sChain chainMove).1 = true ∧
    (makeMove sChain chainMove).2.capture_sequence = true ∧
    (makeMove sChain chainMove).2.current_player = sChain.current_player ∧
    chainRegularMove ∈ getAllValidMoves (makeMove sChain chainMove).2 ∧
    chainRegularMove.is_capture = false := by
  decide

/-- C4 (amended): whenever applying a move to an Active game leaves a
capture chain active (which happens exactly when the move captured and
further captures, excluding those landing back on the origin, exist
from the landing square), the same player remains to move, the
continuation marker is the landing square, and every move subsequently
returned by `get_all_valid_moves` is a move of the piece at the
landing square — captures and regular moves alike. -/
theorem chain_restricts_to_capturing_piece (s : GameState) (m : Move)
    (hover : s.game_over = false)
    (hchain : (makeMove s m).2.capture_sequence = true) :
    (makeMove s m).2.current_player = s.current_player ∧
    (makeMove s m).2.capturing_piece = some m.to_pos ∧
    ∀ mv ∈ getAllValidMoves (makeMove s m).2, mv.from_pos = m.to_pos := by
  unfold makeMove at hchain ⊢
  rw [hover] at hchain ⊢
  simp only [Bool.false_eq_true, if_false] at hchain ⊢
  rcases hc : m.capture_pos with - | cap <;> simp only [hc] at hchain ⊢
  · rw [endTurn_capture_sequence] at hchain
    exact absurd hchain (by simp)
  · split at hchain
    · rename_i hcond
      rw [if_pos hcond]
      refine ⟨by simp [addPiece_current_player, removePiece_current_player], rfl, ?_⟩
      intro mv hmv
      unfold getAllValidMoves at hmv
      simp only [] at hmv
      exact getValidMoves_from_pos _ _ mv hmv
    · rw [endTurn_capture_sequence] at hchain
      exact absurd hchain (by simp)

/-- C4 witness for `chain_restricts_to_capturing_piece`, at the
concrete chain fixture. -/
theorem chain_restricts_to_capturing_piece_witness :
    sChain.game_over = false ∧
    (makeMove sChain chainMove).2.capture_sequence = true ∧
    (makeMove sChain chainMove).2.current_player = sChain.current_player ∧
    (makeMove sChain chainMove).2.capturing_piece = some chainMove.to_pos ∧
    chainRegularMove.from_pos = chainMove.to_pos := by
  have h := chain_restricts_to_capturing_piece sChain chainMove (by decide) (by decide)
  exact ⟨by decide, by decide, h.1, h.2.1, h.2.2 chainRegularMove (by decide)⟩

/-! Claim C5. -/

/-- C5 counterexample: `kingChainMove` legally captures P2's king but
opens a further capture, so `make_move` returns before terminal
evaluation: the resulting state has no P2 king on the board yet
`game_over` is still false and there is no winner. -/
theorem king_capture_unnoticed_during_chain :
    kingChainMove ∈ getAllValidMoves sKingChain ∧
    (makeMove sKingChain kingChainMove).1 = true ∧
    (makeMove sKingChain kingChainMove).2.capture_sequence = true ∧
    getKingPosition (makeMove sKingChain kingChainMove).2 .P2 = none ∧
    (makeMove sKingChain kingChainMove).2.game_over = false ∧
    (makeMove sKingChain kingChainMove).2.winner = none := by
  decide

/-- C5 (amended): whenever terminal evaluation
(`_check_game_state`) runs on a state with a king absent, the game is
marked over with the absent king's opponent as winner and reason king
capture, regardless of every other condition (piece counts, move
limit, stalemate); the evaluation is skipped only while a capture
chain continues. -/
theorem missing_king_terminal_on_evaluation (s : GameState) :
    ((getKingPosition s .P1).isSome = false →
      (checkGameState s).game_over = true ∧
      (checkGameState s).winner = some Player.P2 ∧
      (checkGameState s).win_reason = some WinReason.kingCapture) ∧
    ((getKingPosition s .P1).isSome = true → (getKingPosition s .P2).isSome = false →
      (checkGameState s).game_over = true ∧
      (checkGameState s).winner = some Player.P1 ∧
      (checkGameState s).win_reason = some WinReason.kingCapture) := by
  constructor
  · intro h
    unfold checkGameState
    rw [h]
    simp [checkWinCondition, endGame]
  · intro h1 h2
    unfold checkGameState
    rw [h1, h2]
    simp [checkWinCondition, endGame]

/-- C5 witness for `missing_king_terminal_on_evaluation`, at the
post-chain state of the counterexample (P1 king present, P2 king
captured): running the evaluation there does end the game for P1. -/
theorem missing_king_terminal_witness :
    (getKingPosition (makeMove sKingChain kingChainMove).2 .P1).isSome = true ∧
    (getKingPosition (makeMove sKingChain kingChainMove).2 .P2).isSome = false ∧
    (checkGameState (makeMove sKingChain kingChainMove).2).game_over = true ∧
    (checkGameState (makeMove sKingChain kingChainMove).2).winner = some Player.P1 ∧
    (checkGameState (makeMove sKingChain kingChainMove).2).win_reason =
      some WinReason.kingCapture := by
  refine ⟨by decide, by decide, ?_⟩
  have h := (missing_king_terminal_on_evaluation
    (makeMove sKingChain kingChainMove).2).2 (by decide) (by decide)
  exact ⟨h.1, h.2.1, h.2.2⟩

/-! Claim C8. -/

/-- C8 (code bug): `_create_temp_game_state` never synchronises the
piece-tracking sets, so `get_all_valid_moves` of every temp game is
`[]` (first conjunct, fully general): the opponent-reply scan of
`_evaluate_king_safety` can never find a king-capturing reply.  At the
concrete fixture the simulated position does admit a legal opponent
capture of the king's square (third conjunct, in a properly
synchronised game), yet the king-safety term evaluates to the
distance-based `close_distance_penalty`, not `capture_danger_penalty`,
and the two differ even after scaling by the king-safety weight. -/
theorem king_safety_capture_check_dead :
    (∀ (cfg : DabloConfig) (bd : BoardDict) (p : Option Player) (sid : Player),
      getAllValidMoves (createTempGameState cfg bd p sid) = []) ∧
    safetyMove ∈ getAllValidMoves gSafety ∧
    (getAllValidMoves properSafety).any
      (fun m => m.is_capture && m.capture_pos = some ((2, 2) : Pos)) = true ∧
    evaluateKingSafety .P1 gSafety boardAfterSafety = close_distance_penalty ∧
    close_distance_penalty * medium_king_safety_weight ≠
      capture_danger_penalty * medium_king_safety_weight := by
  refine ⟨?_, by decide, by decide, by decide, by
    norm_num [close_distance_penalty, capture_danger_penalty, medium_king_safety_weight]⟩
  intro cfg bd p sid
  simp [createTempGameState, emptyGame, getAllValidMoves]

/-! Claim C10. -/

/-- C10 counterexample: after `remove_piece` at the off-graph source
position `(-1,-1)` (which inserts that key holding `EMPTY`),
`add_piece` at the same off-graph position returns `True` and places
the piece — the guard is key-of-`board_state` membership, not
board-graph membership. -/
theorem addPiece_accepts_off_graph_position :
    ((-2, -2) : Pos) ∉ nodesList cfgKings ∧
    (addPiece sOffBoard (-2, -2) .p1Warrior).1 = true ∧
    (addPiece sOffBoard (-2, -2) .p1Warrior).2.board (-2, -2) = .p1Warrior ∧
    ((-2, -2) : Pos) ∈ (addPiece sOffBoard (-2, -2) .p1Warrior).2.p1_pieces := by
  decide

/-- C10 (amended): `add_piece` returns `False` and leaves the state
completely unchanged whenever the position is not a key of the board
mapping or already holds a non-empty piece; otherwise it returns
`True` and places the piece, leaving the key set and every other
square unchanged.  (The keys initially coincide with the board-graph
nodes, but `remove_piece` can extend them beyond the graph.) -/
theorem addPiece_spec (s : GameState) (pos : Pos) (pt : PieceType) :
    (pos ∉ s.dom ∨ s.board pos ≠ .empty → addPiece s pos pt = (false, s)) ∧
    (pos ∈ s.dom → s.board pos = .empty →
      (addPiece s pos pt).1 = true ∧
      (addPiece s pos pt).2.board pos = pt ∧
      (addPiece s pos pt).2.dom = s.dom ∧
      ∀ q : Pos, q ≠ pos → (addPiece s pos pt).2.board q = s.board q) := by
  unfold addPiece
  constructor
  · intro h
    by_cases h1 : pos ∈ s.dom
    · have hb : s.board pos ≠ .empty := h.resolve_left (not_not_intro h1)
      rw [if_neg (not_not_intro h1), if_pos hb]
    · rw [if_pos h1]
  · intro h1 h2
    rw [if_neg (by simpa using h1), if_neg (by simp [h2])]
    refine ⟨rfl, by simp [Function.update_apply], rfl, ?_⟩
    intro q hq
    simp [Function.update_apply, hq]

/-- C10 witness for `addPiece_spec`: placing a warrior on the free
on-board square source `(1,1)` of the kings-only game succeeds. -/
theorem addPiece_spec_witness :
    (addPiece sKings (2, 2) .p1Warrior).1 = true ∧
    (addPiece sKings (2, 2) .p1Warrior).2.board (2, 2) = .p1Warrior :=
  ⟨((addPiece_spec sKings (2, 2) .p1Warrior).2 (by decide) (by decide)).1,
   ((addPiece_spec sKings (2, 2) .p1Warrior).2 (by decide) (by decide)).2.1⟩

/-! Claim C6: the board graph is symmetric. -/

/-- Arithmetic characterisation of the node set: primary nodes have
both doubled coordinates even and within bounds, secondary nodes both
odd and within the interior bounds. -/
lemma mem_nodesList_iff {cfg : DabloConfig} {p : Pos} :
    p ∈ nodesList cfg ↔
      (p.1 % 2 = 0 ∧ p.2 % 2 = 0 ∧ 0 ≤ p.1 ∧ p.1 ≤ 2 * (cfg.board_rows : ℤ) - 2 ∧
        0 ≤ p.2 ∧ p.2 ≤ 2 * (cfg.board_cols : ℤ) - 2) ∨
      (p.1 % 2 = 1 ∧ p.2 % 2 = 1 ∧ 1 ≤ p.1 ∧ p.1 ≤ 2 * (cfg.board_rows : ℤ) - 3 ∧
        1 ≤ p.2 ∧ p.2 ≤ 2 * (cfg.board_cols : ℤ) - 3) := by
  constructor
  · intro h
    simp only [nodesList, List.mem_flatMap, List.mem_range] at h
    obtain ⟨ri, hri, ci, hci, hmem⟩ := h
    rcases List.mem_cons.mp hmem with heq | hmem2
    · left
      rw [heq]
      refine ⟨by omega, by omega, by push_cast; omega, by push_cast; omega,
        by push_cast; omega, by push_cast; omega⟩
    · right
      by_cases hcnd : ri < cfg.board_rows - 1 ∧ ci < cfg.board_cols - 1
      · rw [if_pos hcnd] at hmem2
        rcases List.mem_singleton.mp hmem2 with heq
        rw [heq]
        refine ⟨by omega, by omega, by push_cast; omega, by push_cast; omega,
          by push_cast; omega, by push_cast; omega⟩
      · rw [if_neg hcnd] at hmem2
        simp at hmem2
  · intro h
    simp only [nodesList, List.mem_flatMap, List.mem_range]
    rcases h with ⟨h1, h2, h3, h4, h5, h6⟩ | ⟨h1, h2, h3, h4, h5, h6⟩
    · refine ⟨p.1.toNat / 2, by omega, p.2.toNat / 2, by omega, ?_⟩
      apply List.mem_cons.mpr
      left
      rw [Prod.ext_iff]
      constructor <;> (push_cast; omega)
    · refine ⟨p.1.toNat / 2, by omega, p.2.toNat / 2, by omega, ?_⟩
      apply List.mem_cons.mpr
      right
      rw [if_pos (by omega)]
      apply List.mem_singleton.mpr
      rw [Prod.ext_iff]
      constructor <;> (push_cast; omega)

/-- Candidate-neighbor symmetry: for a node of either parity class,
membership of `b` in `a`'s candidate list puts `a` in `b`'s. -/
lemma potentialNeighbors_symm {a b : Pos}
    (hpar : a.1 % 2 = 0 ∧ a.2 % 2 = 0 ∨ a.1 % 2 = 1 ∧ a.2 % 2 = 1)
    (hb : b ∈ potentialNeighbors a) : a ∈ potentialNeighbors b := by
  unfold potentialNeighbors at hb ⊢
  rcases hpar with ⟨h1, h2⟩ | ⟨h1, h2⟩
  · rw [if_pos ⟨h1, h2⟩] at hb
    simp only [List.mem_cons, List.not_mem_nil, or_false] at hb
    rcases hb with rfl | rfl | rfl | rfl | rfl | rfl | rfl | rfl <;>
      (split_ifs <;>
        simp only [List.mem_cons, List.not_mem_nil, or_false, Prod.ext_iff,
          and_true, true_and] <;>
        omega)
  · rw [if_neg (by omega)] at hb
    simp only [List.mem_cons, List.not_mem_nil, or_false] at hb
    rcases hb with rfl | rfl | rfl | rfl <;>
      (split_ifs <;>
        simp only [List.mem_cons, List.not_mem_nil, or_false, Prod.ext_iff,
          and_true, true_and] <;>
        omega)

/-- One direction of graph symmetry (the other is the same lemma with
the roles swapped). -/
lemma neighbors_symm_mp {cfg : DabloConfig} {a b : Pos}
    (h : b ∈ neighbors cfg a) : a ∈ neighbors cfg b := by
  unfold neighbors at h ⊢
  by_cases ha : a ∈ nodesList cfg
  · rw [if_pos ha] at h
    rw [List.mem_filter] at h
    obtain ⟨hpn, hbn⟩ := h
    have hb : b ∈ nodesList cfg := by simpa using hbn
    rw [if_pos hb, List.mem_filter]
    refine ⟨?_, by simpa using ha⟩
    apply potentialNeighbors_symm ?_ hpn
    rcases mem_nodesList_iff.mp ha with ⟨h1, h2, -⟩ | ⟨h1, h2, -⟩
    · exact Or.inl ⟨h1, h2⟩
    · exact Or.inr ⟨h1, h2⟩
  · rw [if_neg ha] at h
    simp at h

/-- C6: for every board size within the configured bounds, the graph
built by `_create_board_graph` is symmetric: `b` is a neighbor of `a`
iff `a` is a neighbor of `b`.  (The proof needs no size bounds at
all.) -/
theorem board_graph_symmetric (cfg : DabloConfig)
    (hr1 : 3 ≤ cfg.board_rows) (hr2 : cfg.board_rows ≤ 10)
    (hc1 : 3 ≤ cfg.board_cols) (hc2 : cfg.board_cols ≤ 10)
    (a b : Pos) : b ∈ neighbors cfg a ↔ a ∈ neighbors cfg b :=
  ⟨neighbors_symm_mp, neighbors_symm_mp⟩

/-- C6 witness for `board_graph_symmetric` on the 3×3 board at the
primary pair source `(0,0)`/`(1,0)`. -/
theorem board_graph_symmetric_witness :
    3 ≤ cfgKings.board_rows ∧ cfgKings.board_rows ≤ 10 ∧
    3 ≤ cfgKings.board_cols ∧ cfgKings.board_cols ≤ 10 ∧
    (((2, 0) : Pos) ∈ neighbors cfgKings (0, 0) ↔
      ((0, 0) : Pos) ∈ neighbors cfgKings (2, 0)) :=
  ⟨by decide, by decide, by decide, by decide,
    board_graph_symmetric cfgKings (by decide) (by decide) (by decide) (by decide)
      (0, 0) (2, 0)⟩

/-! Claim C7: capture landing geometry. -/

/-- Graph adjacency only relates positions whose doubled-coordinate
offset is an orthogonal full step or a diagonal half step. -/
lemma adjacent_offsets {cfg : DabloConfig} {a b : Pos} (h : b ∈ neighbors cfg a) :
    (b.1 - a.1, b.2 - a.2) = ((-2, 0) : Pos) ∨ (b.1 - a.1, b.2 - a.2) = ((2, 0) : Pos) ∨
    (b.1 - a.1, b.2 - a.2) = ((0, -2) : Pos) ∨ (b.1 - a.1, b.2 - a.2) = ((0, 2) : Pos) ∨
    (b.1 - a.1, b.2 - a.2) = ((-1, -1) : Pos) ∨ (b.1 - a.1, b.2 - a.2) = ((-1, 1) : Pos) ∨
    (b.1 - a.1, b.2 - a.2) = ((1, -1) : Pos) ∨ (b.1 - a.1, b.2 - a.2) = ((1, 1) : Pos) := by
  unfold neighbors at h
  split_ifs at h with ha
  · rw [List.mem_filter] at h
    have hpn := h.1
    unfold potentialNeighbors at hpn
    split_ifs at hpn <;>
      simp only [List.mem_cons, List.not_mem_nil, or_false] at hpn <;>
      rcases hpn with rfl | rfl | rfl | rfl | rfl | rfl | rfl | rfl <;>
      simp [Prod.ext_iff]
  · simp at h

/-- C7: `calculate_capture_landing` is a pure function of
`(from, captured)` (it is a `def` on exactly those arguments, so
determinism is by construction), and for a graph-adjacent captured
position the landing is `from + 2·(captured − from)`: it lies on the
line through `from` and `captured` (zero cross product) and is
strictly farther from `from` than `captured` is (squared distances in
the exact doubled-coordinate encoding). -/
theorem capture_landing_collinear_and_farther (cfg : DabloConfig) (a b : Pos)
    (h : b ∈ neighbors cfg a) :
    calculateCaptureLanding a b = (a.1 + 2 * (b.1 - a.1), a.2 + 2 * (b.2 - a.2)) ∧
    ((calculateCaptureLanding a b).1 - a.1) * (b.2 - a.2) =
      ((calculateCaptureLanding a b).2 - a.2) * (b.1 - a.1) ∧
    distSq a b < distSq a (calculateCaptureLanding a b) := by
  have hoff := adjacent_offsets h
  have hL : calculateCaptureLanding a b =
      (a.1 + 2 * (b.1 - a.1), a.2 + 2 * (b.2 - a.2)) := by
    unfold calculateCaptureLanding
    rw [if_neg ?hk]
    · rw [Prod.ext_iff]
      constructor <;> (dsimp only; ring)
    case hk =>
      rcases hoff with hc | hc | hc | hc | hc | hc | hc | hc <;>
        (rw [Prod.ext_iff] at hc; obtain ⟨hc1, hc2⟩ := hc;
         dsimp only at hc1 hc2; rw [hc1, hc2]; decide)
  refine ⟨hL, ?_, ?_⟩
  · rw [hL]; dsimp only; ring
  · have h4 : distSq a (calculateCaptureLanding a b) = 4 * distSq a b := by
      rw [hL]; unfold distSq; dsimp only; ring
    rw [h4]
    have hpos : 0 < distSq a b := by
      unfold distSq
      rcases hoff with hc | hc | hc | hc | hc | hc | hc | hc <;>
        (rw [Prod.ext_iff] at hc; obtain ⟨hc1, hc2⟩ := hc; dsimp only at hc1 hc2;
         nlinarith [hc1, hc2, sq_nonneg (a.1 - b.1), sq_nonneg (a.2 - b.2)])
    omega

/-- C7 witness for `capture_landing_collinear_and_farther` at the
adjacent pair source `(1,1)`/`(1,0)` of the 3×3 board. -/
theorem capture_landing_witness :
    ((2, 0) : Pos) ∈ neighbors cfgKings (2, 2) ∧
    calculateCaptureLanding (2, 2) (2, 0) = ((2, -2) : Pos) ∧
    distSq (2, 2) ((2, 0) : Pos) < distSq (2, 2) (calculateCaptureLanding (2, 2) (2, 0)) := by
  refine ⟨by decide, by decide, ?_⟩
  exact (capture_landing_collinear_and_farther cfgKings (2, 2) (2, 0) (by decide)).2.2

/-! Claim C9: piece sets stay consistent with the board mapping. -/

lemma mem_setAdd {l : List Pos} {p q : Pos} : q ∈ setAdd l p ↔ q = p ∨ q ∈ l := by
  unfold setAdd
  split_ifs with h
  · constructor
    · exact Or.inr
    · rintro (rfl | hq)
      · exact h
      · exact hq
  · simp [List.mem_cons]

lemma nodup_setAdd {l : List Pos} {p : Pos} (hn : l.Nodup) : (setAdd l p).Nodup := by
  unfold setAdd
  split_ifs with h
  · exact hn
  · exact List.nodup_cons.mpr ⟨h, hn⟩

lemma mem_setDiscard {l : List Pos} (hn : l.Nodup) (p q : Pos) :
    q ∈ setDiscard l p ↔ q ≠ p ∧ q ∈ l := by
  induction l with
  | nil => simp [setDiscard]
  | cons x xs ih =>
    rw [List.nodup_cons] at hn
    obtain ⟨hx, hxs⟩ := hn
    unfold setDiscard
    split_ifs with hxp
    · subst hxp
      constructor
      · intro hq
        exact ⟨fun hqp => hx (hqp ▸ hq), List.mem_cons.mpr (Or.inr hq)⟩
      · rintro ⟨hqp, hq⟩
        rcases List.mem_cons.mp hq with rfl | hq2
        · exact absurd rfl hqp
        · exact hq2
    · rw [List.mem_cons, ih hxs, List.mem_cons]
      constructor
      · rintro (rfl | ⟨hqp, hq⟩)
        · exact ⟨fun hqp => hxp (by rw [hqp]), Or.inl rfl⟩
        · exact ⟨hqp, Or.inr hq⟩
      · rintro ⟨hqp, rfl | hq⟩
        · exact Or.inl rfl
        · exact Or.inr ⟨hqp, hq⟩

lemma nodup_setDiscard {l : List Pos} (p : Pos) (hn : l.Nodup) :
    (setDiscard l p).Nodup := by
  induction l with
  | nil => simp [setDiscard]
  | cons x xs ih =>
    rw [List.nodup_cons] at hn
    obtain ⟨hx, hxs⟩ := hn
    unfold setDiscard
    split_ifs with hxp
    · exact hxs
    · refine List.nodup_cons.mpr ⟨?_, ih hxs⟩
      intro hmem
      exact hx ((mem_setDiscard hxs p x).mp hmem).2

/-- The invariant only depends on the four fields the operations below
leave intact. -/
lemma strongInv_congr {s t : GameState} (hb : t.board = s.board) (hd : t.dom = s.dom)
    (h1 : t.p1_pieces = s.p1_pieces) (h2 : t.p2_pieces = s.p2_pieces)
    (h : StrongInv s) : StrongInv t := by
  obtain ⟨hi, hn1, hn2⟩ := h
  refine ⟨?_, h1 ▸ hn1, h2 ▸ hn2⟩
  intro pos
  rw [hb, hd, h1, h2]
  exact hi pos

lemma strongInv_addPiece (s : GameState) (p : Pos) (pt : PieceType)
    (h : StrongInv s) : StrongInv (addPiece s p pt).2 := by
  obtain ⟨hi, hn1, hn2⟩ := h
  unfold addPiece
  split_ifs with h1 h2 h3 h4 h5 <;>
    (refine ⟨fun pos => ?_, ?_, ?_⟩
     · have hip := hi pos
       by_cases hpp : pos = p <;>
         simp_all [Function.update_apply, mem_setAdd, PieceType.value]
     · first | exact hn1 | exact nodup_setAdd hn1
     · first | exact hn2 | exact nodup_setAdd hn2)

lemma strongInv_removePiece (s : GameState) (p : Pos)
    (h : StrongInv s) : StrongInv (removePiece s p).2 := by
  obtain ⟨hi, hn1, hn2⟩ := h
  unfold removePiece
  simp only [boardGetD]
  split_ifs with hd h3 h4 h5 h6 h7 <;>
    (refine ⟨fun pos => ?_, ?_, ?_⟩
     · have hip := hi pos
       by_cases hpp : pos = p <;>
         simp_all [Function.update_apply, mem_setAdd, mem_setDiscard hn1,
           mem_setDiscard hn2, PieceType.value]
     · first | exact hn1 | exact nodup_setDiscard p hn1
     · first | exact hn2 | exact nodup_setDiscard p hn2)

lemma strongInv_clearBoard (s : GameState) (h : StrongInv s) :
    StrongInv (clearBoard s) := by
  unfold clearBoard
  refine ⟨fun pos => ?_, List.nodup_nil, List.nodup_nil⟩
  constructor <;>
    (constructor
     · intro hmem; simp at hmem
     · rintro ⟨hd, hv⟩
       by_cases hdd : pos ∈ s.dom <;> simp_all [PieceType.value])

lemma strongInv_foldl {α : Type} (f : GameState → α → GameState)
    (hf : ∀ (s : GameState) (a : α), StrongInv s → StrongInv (f s a)) :
    ∀ (l : List α) (s : GameState), StrongInv s → StrongInv (l.foldl f s) := by
  intro l
  induction l with
  | nil => intro s h; exact h
  | cons x xs ih => intro s h; exact ih _ (hf s x h)

lemma strongInv_setupCustomPosition (s : GameState) (pieces : List (Pos × PieceType))
    (h : StrongInv s) : StrongInv (setupCustomPosition s pieces) := by
  unfold setupCustomPosition
  apply strongInv_foldl
  · intro st pp hst
    split_ifs
    · exact strongInv_addPiece st pp.1 pp.2 hst
    · exact hst
  · exact strongInv_clearBoard s h

lemma checkGameState_board (s : GameState) : (checkGameState s).board = s.board := by
  unfold checkGameState; dsimp only; split <;> rfl

lemma checkGameState_dom (s : GameState) : (checkGameState s).dom = s.dom := by
  unfold checkGameState; dsimp only; split <;> rfl

lemma checkGameState_p1_pieces (s : GameState) :
    (checkGameState s).p1_pieces = s.p1_pieces := by
  unfold checkGameState; dsimp only; split <;> rfl

lemma checkGameState_p2_pieces (s : GameState) :
    (checkGameState s).p2_pieces = s.p2_pieces := by
  unfold checkGameState; dsimp only; split <;> rfl

lemma strongInv_checkGameState (s : GameState) (h : StrongInv s) :
    StrongInv (checkGameState s) :=
  strongInv_congr (checkGameState_board s) (checkGameState_dom s)
    (checkGameState_p1_pieces s) (checkGameState_p2_pieces s) h

lemma strongInv_endTurn (s : GameState) (h : StrongInv s) : StrongInv (endTurn s) := by
  unfold endTurn
  apply strongInv_checkGameState
  exact strongInv_congr rfl rfl rfl rfl h

lemma strongInv_makeMove (s : GameState) (m : Move) (h : StrongInv s) :
    StrongInv (makeMove s m).2 := by
  unfold makeMove
  split
  · exact h
  · have h1 := strongInv_addPiece (removePiece s m.from_pos).2 m.to_pos
      (removePiece s m.from_pos).1 (strongInv_removePiece s m.from_pos h)
    rcases hc : m.capture_pos with - | cap <;> simp only [hc]
    · exact strongInv_endTurn _ (strongInv_congr rfl rfl rfl rfl h1)
    · have h2 := strongInv_removePiece _ cap (strongInv_congr rfl rfl rfl rfl h1)
      split
      · exact strongInv_congr rfl rfl rfl rfl (strongInv_congr rfl rfl rfl rfl h2)
      · exact strongInv_endTurn _ (strongInv_congr rfl rfl rfl rfl h2)

lemma strongInv_newGame (cfg : DabloConfig) : StrongInv (newGame cfg) := by
  unfold newGame
  apply strongInv_foldl
  · intro st e hst
    apply strongInv_foldl
    · intro st2 pos hst2
      exact strongInv_addPiece st2 pos e.1 hst2
    · exact hst
  · apply strongInv_foldl
    · intro st e hst
      apply strongInv_foldl
      · intro st2 pos hst2
        exact strongInv_addPiece st2 pos e.1 hst2
      · exact hst
    · refine ⟨fun pos => ?_, List.nodup_nil, List.nodup_nil⟩
      constructor <;> simp [PieceType.value]

lemma strongInv_of_reachable {s : GameState} (h : Reachable s) : StrongInv s := by
  induction h with
  | init cfg => exact strongInv_newGame cfg
  | add s pos pt _ ih => exact strongInv_addPiece s pos pt ih
  | remove s pos _ ih => exact strongInv_removePiece s pos ih
  | clear s _ ih => exact strongInv_clearBoard s ih
  | custom s pieces _ ih => exact strongInv_setupCustomPosition s pieces ih
  | move s m _ ih => exact strongInv_makeMove s m ih

/-- C9: for every game constructed through the public configuration
(`newGame`) and mutated only through `add_piece`, `remove_piece`,
`clear_board`, `setup_custom_position` and `make_move` (the
`Reachable` predicate), the invariant holds after every operation: a
position is in a player's occupied set iff the board mapping at that
position holds a piece owned by that player. -/
theorem piece_sets_match_board : ∀ s : GameState, Reachable s → invariantC9 s :=
  fun _ h => (strongInv_of_reachable h).1

/-- C9 witness for `piece_sets_match_board` at the freshly constructed
kings-only game and its P1 king square. -/
theorem piece_sets_match_board_witness :
    ((4, 4) : Pos) ∈ sKings.p1_pieces ↔
      ((4, 4) : Pos) ∈ sKings.dom ∧ 0 < (sKings.board (4, 4)).value :=
  ((piece_sets_match_board sKings (Reachable.init cfgKings)) (4, 4)).1

end Dablo
